/-
Verification of the System-Monitor-Bot telemetry pipeline.

This file gives a shallow embedding, in Lean 4, of the pure core of the
Go program: the temperature classifier, the maximum-temperature
accumulators, the alert-dispatch step, the port deduplicator/sorter, the
port chunk renderer, and the `top`-output memory parser.  Go `float64`
values are modelled as exact rationals (`ℚ`); Go `int` as `Int`; Go
strings as Lean `String`, with the handful of Go string primitives the
code uses re-implemented below over the character list.  Nondeterminism
in the Go source (map iteration order, `sort.Slice` tie order) is
determinized: first-seen order before sorting, and a stable merge sort
for `sort.Slice`; each such choice is noted at the definition it affects.
-/
import Mathlib

namespace SysMonitorBot

/-! ## Go string primitives

Re-implementations of the `strings` package functions the embedded code
uses.  Go strings are byte slices; all inputs handled by this program are
ASCII, so we work with Lean characters and `Char` classifiers. -/

/-- Model of Go `strings.TrimSpace`: drop whitespace from both ends. -/
def goTrimSpace (s : String) : String :=
  ⟨((s.data.dropWhile Char.isWhitespace).reverse.dropWhile Char.isWhitespace).reverse⟩

/-- Model of Go `strings.ToUpper` (ASCII). -/
def goToUpper (s : String) : String := ⟨s.data.map Char.toUpper⟩

/-- Model of Go `strings.ToLower` (ASCII). -/
def goToLower (s : String) : String := ⟨s.data.map Char.toLower⟩

/-- Accumulator loop for `goFields`: `acc` holds the current token in
reverse. -/
def fieldsAux : List Char → List Char → List (List Char)
  | acc, [] => if acc.isEmpty then [] else [acc.reverse]
  | acc, c :: rest =>
    if c.isWhitespace then
      if acc.isEmpty then fieldsAux [] rest
      else acc.reverse :: fieldsAux [] rest
    else fieldsAux (c :: acc) rest

/-- Model of Go `strings.Fields`: split on whitespace runs, no empty tokens. -/
def goFields (s : String) : List String :=
  (fieldsAux [] s.data).map (fun cs => ⟨cs⟩)

/-- Whether `needle` is a leading slice of the character list. -/
def startsWithChars : List Char → List Char → Bool
  | _, [] => true
  | [], _ :: _ => false
  | h :: hs, n :: ns => h = n && startsWithChars hs ns

/-- Whether `needle` occurs contiguously anywhere in the character list. -/
def containsChars (needle : List Char) : List Char → Bool
  | [] => needle.isEmpty
  | c :: hs => startsWithChars (c :: hs) needle || containsChars needle hs

/-- Model of Go `strings.Contains`: substring test. -/
def goContains (s sub : String) : Bool := containsChars sub.data s.data

/-- Model of Go `strings.Trim` with a cutset: drop cutset characters from
both ends. -/
def goTrimCutset (s : String) (cutset : List Char) : String :=
  ⟨((s.data.dropWhile (· ∈ cutset)).reverse.dropWhile (· ∈ cutset)).reverse⟩

/-- Left-to-right, non-overlapping split on a separator, fuelled so the
recursion is structural (the fuel only needs to dominate the input
length: every step consumes at least one character). -/
def splitOnCharsFuel (sep : List Char) : ℕ → List Char → List (List Char)
  | 0, cs => [cs]
  | fuel + 1, cs =>
    match cs with
    | [] => [[]]
    | c :: rest =>
      if startsWithChars cs sep then
        [] :: splitOnCharsFuel sep fuel (cs.drop sep.length)
      else
        match splitOnCharsFuel sep fuel rest with
        | [] => [[c]]
        | g :: gs => (c :: g) :: gs

/-- Model of Go `strings.Split` (for a non-empty separator). -/
def goSplitOn (s sep : String) : List String :=
  if sep.data.isEmpty then s.data.map (fun c => ⟨[c]⟩)
  else (splitOnCharsFuel sep.data s.data.length s.data).map (fun cs => ⟨cs⟩)

/-- Numeric value of a decimal digit character. -/
def digitVal (c : Char) : ℕ := c.toNat - '0'.toNat

/-- Value of a list of decimal digit characters, most significant first. -/
def digitsToNat (ds : List Char) : ℕ :=
  ds.foldl (fun acc c => 10 * acc + digitVal c) 0

/-! ## Data model (`internal/monitor` type declarations) -/

/-- Go `type TempStatus int` with `TempNormal`/`TempWarning`/`TempCritical`.
The Go zero value is `TempNormal` (iota 0). -/
inductive TempStatus where
  | TempNormal
  | TempWarning
  | TempCritical
deriving DecidableEq, Repr

/-- Go `type TemperatureSensor struct` from the monitor package.
`Temperature float64` is modelled as an exact rational. -/
structure TemperatureSensor where
  ID : String
  Name : String
  Temperature : ℚ
  Category : String
  Status : TempStatus
deriving DecidableEq, Repr

/-- Go `type NetworkPort struct` from the monitor package. -/
structure NetworkPort where
  Protocol : String
  Address : String
  Port : String
  State : String
  ProcessName : String
  PID : String
deriving DecidableEq, Repr

/-- Go `type ProcessMemory struct` from the monitor package.  Percentages
are modelled as exact rationals. -/
structure ProcessMemory where
  PID : String
  User : String
  Command : String
  MemoryPercent : ℚ
  CPUPercent : ℚ
deriving DecidableEq, Repr

/-! ## Temperature classification (`embed/builder.go` `getTemperatureStatus`,
identical logic in the temperature monitor) -/

/-- Model of `getTemperatureStatus`: `temp >= critical → Critical`,
else `temp >= warning → Warning`, else `Normal`. -/
def getTemperatureStatus (critical warning temp : ℚ) : TempStatus :=
  if temp ≥ critical then .TempCritical
  else if temp ≥ warning then .TempWarning
  else .TempNormal

/-! ## Maximum-temperature accumulators (C10)

`BuildTemperature` and `BuildAlert` both run
`maxTemp := 0.0; for _, sensor := range sensors { if sensor.Temperature > maxTemp { … } }`,
and the monitoring loop runs the same fold over whole sensors starting
from the zero-valued `monitor.TemperatureSensor`. -/

/-- The `maxTemp` accumulation in `BuildTemperature` (builder.go lines 31-45). -/
def buildTemperatureMaxTemp (sensors : List TemperatureSensor) : ℚ :=
  sensors.foldl (fun maxTemp s => if s.Temperature > maxTemp then s.Temperature else maxTemp) 0

/-- The `maxTemp` accumulation in `BuildAlert` (builder.go lines 263-268). -/
def buildAlertMaxTemp (sensors : List TemperatureSensor) : ℚ :=
  sensors.foldl (fun maxTemp s => if s.Temperature > maxTemp then s.Temperature else maxTemp) 0

/-- The Go zero value of `monitor.TemperatureSensor`
(`var maxSensor monitor.TemperatureSensor`). -/
def zeroSensor : TemperatureSensor :=
  { ID := "", Name := "", Temperature := 0, Category := "", Status := .TempNormal }

/-- The `maxSensor` selection loop in `startTemperatureMonitoring`
(bot.go lines 196-201). -/
def monitorMaxSensor (sensors : List TemperatureSensor) : TemperatureSensor :=
  sensors.foldl
    (fun maxSensor s => if s.Temperature > maxSensor.Temperature then s else maxSensor)
    zeroSensor

/-- The overall status computed by `BuildTemperature` (builder.go line 51):
the classifier applied to the accumulated maximum. -/
def buildTemperatureOverallStatus (critical warning : ℚ)
    (sensors : List TemperatureSensor) : TempStatus :=
  getTemperatureStatus critical warning (buildTemperatureMaxTemp sensors)

/-! ## Claim C1 -/

/-- C1: for configured thresholds `w < c` and every temperature `t`, the
classifier returns `Critical` iff `t ≥ c`, `Warning` iff `w ≤ t < c`, and
`Normal` iff `t < w`. -/
theorem c1_classifier_iff (w c t : ℚ) (h : w < c) :
    (getTemperatureStatus c w t = .TempCritical ↔ c ≤ t) ∧
    (getTemperatureStatus c w t = .TempWarning ↔ w ≤ t ∧ t < c) ∧
    (getTemperatureStatus c w t = .TempNormal ↔ t < w) := by
  unfold getTemperatureStatus
  split_ifs with h1 h2
  · refine ⟨⟨fun _ => h1, fun _ => rfl⟩, ⟨?_, ?_⟩, ⟨?_, ?_⟩⟩
    · intro hx; cases hx
    · intro hx; exact absurd h1 (not_le.mpr hx.2)
    · intro hx; cases hx
    · intro hx; exact absurd h1 (not_le.mpr (lt_trans hx h))
  · have h1' : t < c := not_le.mp h1
    refine ⟨⟨?_, ?_⟩, ⟨fun _ => ⟨h2, h1'⟩, fun _ => rfl⟩, ⟨?_, ?_⟩⟩
    · intro hx; cases hx
    · intro hx; exact absurd hx h1
    · intro hx; cases hx
    · intro hx; exact absurd h2 (not_le.mpr hx)
  · have h2' : t < w := not_le.mp h2
    refine ⟨⟨?_, ?_⟩, ⟨?_, ?_⟩, ⟨fun _ => h2', fun _ => rfl⟩⟩
    · intro hx; cases hx
    · intro hx; exact absurd hx h1
    · intro hx; cases hx
    · intro hx; exact absurd hx.1 h2

/-- Witness for C1 at thresholds `w = 70`, `c = 80`, temperature `t = 72`. -/
theorem c1_classifier_iff_witness :
    (70 : ℚ) < 80 ∧
      ((getTemperatureStatus 80 70 72 = .TempCritical ↔ (80 : ℚ) ≤ 72) ∧
       (getTemperatureStatus 80 70 72 = .TempWarning ↔ (70 : ℚ) ≤ 72 ∧ (72 : ℚ) < 80) ∧
       (getTemperatureStatus 80 70 72 = .TempNormal ↔ (72 : ℚ) < 70)) :=
  ⟨by norm_num, c1_classifier_iff 70 80 72 (by norm_num)⟩

/-! ## Claim C10 -/

/-- All-negative sensor lists leave the `maxTemp` fold at its start value `0`. -/
theorem foldMax_all_neg (sensors : List TemperatureSensor)
    (h : ∀ s ∈ sensors, s.Temperature < 0) :
    sensors.foldl (fun maxTemp s => if s.Temperature > maxTemp then s.Temperature else maxTemp) 0
      = 0 := by
  induction sensors with
  | nil => rfl
  | cons s rest ih =>
    have hs : s.Temperature < 0 := h s (List.mem_cons_self s rest)
    have : ¬ (s.Temperature > (0 : ℚ)) := by linarith
    simp only [List.foldl_cons, if_neg this]
    exact ih fun x hx => h x (List.mem_cons_of_mem s hx)

/-- All-negative sensor lists leave the `maxSensor` fold at the zero sensor. -/
theorem foldMaxSensor_all_neg (sensors : List TemperatureSensor)
    (h : ∀ s ∈ sensors, s.Temperature < 0) :
    monitorMaxSensor sensors = zeroSensor := by
  unfold monitorMaxSensor
  induction sensors with
  | nil => rfl
  | cons s rest ih =>
    have hs : s.Temperature < 0 := h s (List.mem_cons_self s rest)
    have hz : zeroSensor.Temperature = 0 := rfl
    have : ¬ (s.Temperature > zeroSensor.Temperature) := by rw [hz]; linarith
    simp only [List.foldl_cons, if_neg this]
    exact ih fun x hx => h x (List.mem_cons_of_mem s hx)

/-- C10: the maximum-temperature accumulators start at `0.0`, so when every
sensor temperature is negative the reported "Max", the overall status, and
the monitoring loop's selected maximum sensor are all computed from `0`
rather than from any actual reading (every actual reading is strictly below
the value used). -/
theorem c10_max_accumulator_zero (critical warning : ℚ)
    (sensors : List TemperatureSensor)
    (h : ∀ s ∈ sensors, s.Temperature < 0) :
    buildTemperatureMaxTemp sensors = 0 ∧
    buildAlertMaxTemp sensors = 0 ∧
    (monitorMaxSensor sensors).Temperature = 0 ∧
    buildTemperatureOverallStatus critical warning sensors
      = getTemperatureStatus critical warning 0 ∧
    ∀ s ∈ sensors, s.Temperature < buildTemperatureMaxTemp sensors := by
  have h1 : buildTemperatureMaxTemp sensors = 0 := foldMax_all_neg sensors h
  have h2 : buildAlertMaxTemp sensors = 0 := foldMax_all_neg sensors h
  have h3 : monitorMaxSensor sensors = zeroSensor := foldMaxSensor_all_neg sensors h
  refine ⟨h1, h2, by rw [h3]; rfl, ?_, ?_⟩
  · unfold buildTemperatureOverallStatus
    rw [h1]
  · intro s hs
    rw [h1]
    exact h s hs

/-- A one-element sensor list whose only reading is `-5 °C`. -/
def negSensorList : List TemperatureSensor :=
  [{ ID := "t1", Name := "Core 0", Temperature := -5, Category := "CPU",
     Status := .TempNormal }]

/-- Witness for C10: a single sensor reading `-5 °C`. -/
theorem c10_max_accumulator_zero_witness :
    (∀ s ∈ negSensorList, s.Temperature < 0) ∧
    buildTemperatureMaxTemp negSensorList = 0 := by
  have h : ∀ s ∈ negSensorList, s.Temperature < 0 := by decide
  exact ⟨h, (c10_max_accumulator_zero 80 70 negSensorList h).1⟩

/-! ## Alert coordinator (`bot.go` `sendTemperatureAlert`)

State relevant to the dispatch step: `lastAlert time.Time` and the
`alertChannels map[string]bool` subscription set.  Time is modelled as an
integer instant (Go nanoseconds); `time.Since(lastAlert) = now - lastAlert`.
The channel map is modelled as its key list; Go map iteration order is
unspecified, so the model fixes an arbitrary list order (the claims proved
below are order-independent).  Delivery success per channel is an oracle
`deliverOk`. -/

structure AlertState where
  lastAlert : Int
  alertChannels : List String
deriving DecidableEq, Repr

/-- Result of one `sendTemperatureAlert` call: whether an alert embed was
dispatched, which channels received a delivery attempt (in order), and the
updated state. -/
structure AlertDispatch where
  dispatched : Bool
  attempts : List String
  state : AlertState
deriving DecidableEq, Repr

/-- The per-channel delivery loop (bot.go lines 254-265): every channel in
the map at loop start is attempted exactly once; a failed channel is
deleted from the map (deleting the current key during Go map iteration
does not affect which other keys are produced).  Returns (attempts,
surviving channels). -/
def deliveryLoop (deliverOk : String → Bool) : List String → List String × List String
  | [] => ([], [])
  | c :: rest =>
    let r := deliveryLoop deliverOk rest
    (c :: r.1, if deliverOk c then c :: r.2 else r.2)

/-- Model of `sendTemperatureAlert` (bot.go lines 225-270): suppress when
`time.Since(lastAlert) < cooldown`; suppress when no channel is
subscribed; otherwise run the delivery loop and set `lastAlert := now`
unconditionally afterwards. -/
def sendTemperatureAlert (cooldown now : Int) (deliverOk : String → Bool)
    (st : AlertState) : AlertDispatch :=
  if now - st.lastAlert < cooldown then ⟨false, [], st⟩
  else if st.alertChannels = [] then ⟨false, [], st⟩
  else
    let r := deliveryLoop deliverOk st.alertChannels
    ⟨true, r.1, ⟨now, r.2⟩⟩

/-- The delivery loop attempts exactly the input channels, in order, and
keeps exactly the channels whose delivery succeeded. -/
theorem deliveryLoop_spec (deliverOk : String → Bool) (l : List String) :
    (deliveryLoop deliverOk l).1 = l ∧
    (deliveryLoop deliverOk l).2 = l.filter deliverOk := by
  induction l with
  | nil => exact ⟨rfl, rfl⟩
  | cons c rest ih =>
    refine ⟨by simp [deliveryLoop, ih.1], ?_⟩
    by_cases hc : deliverOk c <;> simp [deliveryLoop, ih.2, List.filter, hc]

/-! ## Claim C2 -/

/-- C2: with cooldown `D` and last alert at `t0`, a breach at any
`t ∈ [t0, t0 + D)` dispatches nothing and leaves the state unchanged, and
a breach at `t ≥ t0 + D` is dispatched provided at least one destination
is subscribed. -/
theorem c2_alert_cooldown (D t0 t : Int) (deliverOk : String → Bool)
    (chans : List String) :
    (t0 ≤ t → t < t0 + D →
      sendTemperatureAlert D t deliverOk ⟨t0, chans⟩ = ⟨false, [], ⟨t0, chans⟩⟩) ∧
    (t0 + D ≤ t → chans ≠ [] →
      (sendTemperatureAlert D t deliverOk ⟨t0, chans⟩).dispatched = true) := by
  constructor
  · intro _ hlt
    have : t - t0 < D := by omega
    simp [sendTemperatureAlert, this]
  · intro hge hch
    have : ¬ (t - t0 < D) := by omega
    simp [sendTemperatureAlert, this, hch]

/-- Witness for C2: cooldown `100`, last alert at `0`, breaches at `50`
(suppressed) and `120` (dispatched). -/
theorem c2_alert_cooldown_witness :
    sendTemperatureAlert 100 50 (fun _ => true) ⟨0, ["chan1"]⟩
        = ⟨false, [], ⟨0, ["chan1"]⟩⟩ ∧
    (sendTemperatureAlert 100 120 (fun _ => true) ⟨0, ["chan1"]⟩).dispatched = true :=
  ⟨(c2_alert_cooldown 100 0 50 (fun _ => true) ["chan1"]).1 (by decide) (by decide),
   (c2_alert_cooldown 100 0 120 (fun _ => true) ["chan1"]).2 (by decide) (by decide)⟩

/-! ## Claim C6 -/

/-- C6: whenever a dispatch passes the cooldown and subscribed-destinations
guards, the last-alert timestamp is set to `now` after the delivery loop,
for every delivery outcome — including the outcome in which delivery failed
for every subscribed destination. -/
theorem c6_timestamp_unconditional (cooldown now : Int) (deliverOk : String → Bool)
    (st : AlertState)
    (hcd : cooldown ≤ now - st.lastAlert) (hch : st.alertChannels ≠ []) :
    (sendTemperatureAlert cooldown now deliverOk st).state.lastAlert = now := by
  have : ¬ (now - st.lastAlert < cooldown) := not_lt.mpr hcd
  simp [sendTemperatureAlert, this, hch]

/-- Witness for C6: two subscribed channels, delivery fails for both, the
timestamp still becomes `now = 100`. -/
theorem c6_timestamp_unconditional_witness :
    (100 : Int) ≤ 100 - 0 ∧
    (sendTemperatureAlert 100 100 (fun _ => false) ⟨0, ["a", "b"]⟩).state.lastAlert = 100 :=
  ⟨by decide,
   c6_timestamp_unconditional 100 100 (fun _ => false) ⟨0, ["a", "b"]⟩
     (by decide) (by decide)⟩

/-! ## Claim C7 -/

/-- C7: during a dispatch that passes both guards, every destination
subscribed at the start receives exactly one delivery attempt (failures
never abort the loop), each failing destination is removed from the
subscription set, and the surviving set is exactly the successful ones. -/
theorem c7_delivery_attempts (cooldown now : Int) (deliverOk : String → Bool)
    (st : AlertState)
    (hcd : cooldown ≤ now - st.lastAlert) (hch : st.alertChannels ≠ [])
    (hnd : st.alertChannels.Nodup) :
    (sendTemperatureAlert cooldown now deliverOk st).attempts = st.alertChannels ∧
    (∀ c ∈ st.alertChannels,
      ((sendTemperatureAlert cooldown now deliverOk st).attempts).count c = 1) ∧
    (sendTemperatureAlert cooldown now deliverOk st).state.alertChannels
      = st.alertChannels.filter deliverOk ∧
    (∀ c ∈ st.alertChannels, deliverOk c = false →
      c ∉ (sendTemperatureAlert cooldown now deliverOk st).state.alertChannels) := by
  have hg : ¬ (now - st.lastAlert < cooldown) := not_lt.mpr hcd
  have hatt : (sendTemperatureAlert cooldown now deliverOk st).attempts
      = st.alertChannels := by
    simp [sendTemperatureAlert, hg, hch, (deliveryLoop_spec deliverOk st.alertChannels).1]
  have hsurv : (sendTemperatureAlert cooldown now deliverOk st).state.alertChannels
      = st.alertChannels.filter deliverOk := by
    simp [sendTemperatureAlert, hg, hch, (deliveryLoop_spec deliverOk st.alertChannels).2]
  refine ⟨hatt, ?_, hsurv, ?_⟩
  · intro c hc
    rw [hatt]
    exact List.count_eq_one_of_mem hnd hc
  · intro c _ hfail
    rw [hsurv]
    intro hmem
    have := List.of_mem_filter hmem
    rw [hfail] at this
    cases this

/-- Witness for C7: channels `["a", "b"]`, delivery fails on `"a"` only. -/
theorem c7_delivery_attempts_witness :
    (sendTemperatureAlert 100 100 (fun c => c ≠ "a") ⟨0, ["a", "b"]⟩).attempts
      = ["a", "b"] ∧
    (sendTemperatureAlert 100 100 (fun c => c ≠ "a") ⟨0, ["a", "b"]⟩).state.alertChannels
      = ["b"] := by
  have h := c7_delivery_attempts 100 100 (fun c => c ≠ "a") ⟨0, ["a", "b"]⟩
    (by decide) (by decide) (by decide)
  refine ⟨h.1, ?_⟩
  rw [h.2.2.1]
  decide

/-! ## Port deduplication and sorting (`embed/builder.go`
`deduplicatePorts` / `parsePortNumber`) -/

/-- Model of `fmt.Sscanf(portStr, "%d", &portNum)`: skip leading
whitespace, accept an optional sign, then a nonempty run of decimal
digits; trailing characters are ignored; fail when no digit is read.
(Go would also fail on 64-bit overflow; port strings are far below that.) -/
def sscanfInt (s : String) : Option Int :=
  let cs := s.data.dropWhile Char.isWhitespace
  match cs with
  | '-' :: rest =>
    let ds := rest.takeWhile Char.isDigit
    if ds.isEmpty then none else some (-(digitsToNat ds : Int))
  | '+' :: rest =>
    let ds := rest.takeWhile Char.isDigit
    if ds.isEmpty then none else some (digitsToNat ds : Int)
  | _ =>
    let ds := cs.takeWhile Char.isDigit
    if ds.isEmpty then none else some (digitsToNat ds : Int)

/-- Model of `parsePortNumber` (builder.go lines 393-405): trim, scan `%d`,
unparsable ports get the sentinel `99999`. -/
def parsePortNumber (portStr : String) : Int :=
  match sscanfInt (goTrimSpace portStr) with
  | none => 99999
  | some n => n

/-- The dedup key (builder.go line 357):
`fmt.Sprintf("%s|%s|%s", ToUpper(TrimSpace(Protocol)), TrimSpace(Address), TrimSpace(Port))`. -/
def portKey (p : NetworkPort) : String :=
  goToUpper (goTrimSpace p.Protocol) ++ "|" ++ goTrimSpace p.Address ++ "|"
    ++ goTrimSpace p.Port

/-- The `sort.Slice` comparator (builder.go lines 377-386): protocols
differ → `Protocol == "TCP"` first; otherwise ascending parsed port. -/
def portLess (a b : NetworkPort) : Bool :=
  if a.Protocol ≠ b.Protocol then a.Protocol = "TCP"
  else decide (parsePortNumber a.Port < parsePortNumber b.Port)

/-- The non-strict order induced by the comparator.  Go's `sort.Slice` is
not stable and leaves the order of comparator-equal elements unspecified;
the model determinizes it as a stable insertion sort with respect to this
order. -/
def portLE (a b : NetworkPort) : Bool := !(portLess b a)

/-- The order `portLE` as a decidable relation for `List.insertionSort`. -/
def portOrder (a b : NetworkPort) : Prop := portLE a b = true

instance : DecidableRel portOrder := fun a b => instDecidableEqBool (portLE a b) true

/-- The map-filling loop (builder.go lines 351-365): only the first
occurrence of each key is kept.  Go later iterates the map in an
unspecified order before sorting; the model keeps first-seen order, which
the subsequent sort makes immaterial up to ties. -/
def firstOccurrences : List NetworkPort → List String → List NetworkPort
  | [], _ => []
  | p :: rest, seen =>
    if portKey p ∈ seen then firstOccurrences rest seen
    else p :: firstOccurrences rest (portKey p :: seen)

/-- Model of `deduplicatePorts` (builder.go lines 340-390): early return on the
empty list, else keep first occurrences per key and sort with the
comparator. -/
def deduplicatePorts (ports : List NetworkPort) : List NetworkPort :=
  if ports = [] then ports
  else (firstOccurrences ports []).insertionSort portOrder

/-! ## Claim C3 -/

/-- A port entry with no resolved process name. -/
def portNoName : NetworkPort :=
  { Protocol := "TCP", Address := "0.0.0.0:80", Port := "80", State := "LISTEN",
    ProcessName := "", PID := "" }

/-- The same (protocol, address, port) with a resolved process name. -/
def portWithName : NetworkPort :=
  { Protocol := "TCP", Address := "0.0.0.0:80", Port := "80", State := "LISTEN",
    ProcessName := "Nginx Web Server (PID: 1)", PID := "1" }

/-- C3 counterexample: when the unresolved entry comes first, the
deduplicated output retains the unresolved entry, not the one with the
resolved process name — refuting "retains the entry with the resolved
process name, regardless of which of the two appears first". -/
theorem c3_counterexample :
    deduplicatePorts [portNoName, portWithName] = [portNoName] ∧
    portNoName.ProcessName = "" ∧
    portWithName.ProcessName = "Nginx Web Server (PID: 1)" ∧
    portNoName ≠ portWithName := by
  refine ⟨?_, rfl, rfl, by decide⟩
  decide

/-- C3 amended: for two entries with the same dedup key, the entry that
appears first in the input is retained, regardless of which of the two
has a resolved process name. -/
theorem c3_amended_first_wins (a b : NetworkPort) (h : portKey a = portKey b) :
    deduplicatePorts [a, b] = [a] := by
  have h1 : firstOccurrences [a, b] [] = [a] := by
    simp [firstOccurrences, h]
  unfold deduplicatePorts
  rw [if_neg (by simp : ¬([a, b] : List NetworkPort) = []), h1]
  rfl

/-- Witness for C3 amended: the resolved-name entry first, the unresolved
entry second — the first (resolved) one is retained. -/
theorem c3_amended_first_wins_witness :
    portKey portWithName = portKey portNoName ∧
    deduplicatePorts [portWithName, portNoName] = [portWithName] :=
  ⟨by decide, c3_amended_first_wins portWithName portNoName (by decide)⟩

/-! ## Claim C8 -/

/-- A TCP entry whose port string parses to a value above the `99999`
sentinel used for unparsable ports. -/
def portParsableBig : NetworkPort :=
  { Protocol := "TCP", Address := "0.0.0.0:123456", Port := "123456",
    State := "LISTEN", ProcessName := "", PID := "" }

/-- A TCP entry whose port string cannot be parsed as an integer. -/
def portUnparsable : NetworkPort :=
  { Protocol := "TCP", Address := "0.0.0.0:abc", Port := "abc",
    State := "LISTEN", ProcessName := "", PID := "" }

/-- C8 counterexample: within the same protocol group, an entry whose port
cannot be parsed (sentinel `99999`) sorts *before* a parsable entry whose
port value exceeds `99999` — refuting "entries whose port string cannot be
parsed come after all parsable ones within their protocol group". -/
theorem c8_counterexample :
    deduplicatePorts [portParsableBig, portUnparsable]
      = [portUnparsable, portParsableBig] ∧
    sscanfInt "abc" = none ∧
    parsePortNumber "abc" = 99999 ∧
    parsePortNumber "123456" = 123456 ∧
    portUnparsable.Protocol = portParsableBig.Protocol := by
  refine ⟨by decide, by decide, by decide, by decide, rfl⟩

/-- Protocol tier used by the comparator: `"TCP"` first, everything else
after. -/
def protoTier (p : NetworkPort) : ℕ := if p.Protocol = "TCP" then 0 else 1

/-- On entries whose protocol is `"TCP"` or `"UDP"`, the comparator order
is the lexicographic order on (protocol tier, parsed port). -/
theorem portLE_char (a b : NetworkPort)
    (ha : a.Protocol = "TCP" ∨ a.Protocol = "UDP")
    (hb : b.Protocol = "TCP" ∨ b.Protocol = "UDP") :
    portLE a b = true ↔
      (protoTier a < protoTier b ∨
        (protoTier a = protoTier b ∧
          parsePortNumber a.Port ≤ parsePortNumber b.Port)) := by
  rcases ha with ha | ha <;> rcases hb with hb | hb <;>
    simp [portLE, portLess, protoTier, ha, hb]

/-- Ports restricted to the protocols the network monitor actually
produces (`strings.ToUpper` of the `ss` protocol column). -/
def TUPort : Type := { p : NetworkPort // p.Protocol = "TCP" ∨ p.Protocol = "UDP" }

/-- The comparator order on protocol-restricted ports. -/
def tuOrder (a b : TUPort) : Prop := portOrder a.1 b.1

instance : DecidableRel tuOrder :=
  fun a b => instDecidableEqBool (portLE a.1 b.1) true

instance : IsTotal TUPort tuOrder where
  total a b := by
    rcases a with ⟨a, ha⟩; rcases b with ⟨b, hb⟩
    simp only [tuOrder, portOrder]
    rw [portLE_char a b ha hb, portLE_char b a hb ha]
    omega

instance : IsTrans TUPort tuOrder where
  trans a b c hab hbc := by
    rcases a with ⟨a, ha⟩; rcases b with ⟨b, hb⟩; rcases c with ⟨c, hc⟩
    simp only [tuOrder, portOrder] at *
    rw [portLE_char a b ha hb] at hab
    rw [portLE_char b c hb hc] at hbc
    rw [portLE_char a c ha hc]
    omega

/-- Entries kept by the map-filling loop come from the input. -/
theorem mem_firstOccurrences :
    ∀ (l : List NetworkPort) (seen : List String) (x : NetworkPort),
      x ∈ firstOccurrences l seen → x ∈ l := by
  intro l
  induction l with
  | nil => intro seen x h; simp [firstOccurrences] at h
  | cons p rest ih =>
    intro seen x h
    by_cases hf : portKey p ∈ seen
    · simp only [firstOccurrences, if_pos hf] at h
      exact List.mem_cons_of_mem p (ih seen x h)
    · simp only [firstOccurrences, if_neg hf] at h
      rcases List.mem_cons.mp h with h | h
      · exact h ▸ List.mem_cons_self p rest
      · exact List.mem_cons_of_mem p (ih _ x h)

/-- Keys of kept entries were not in the seen set. -/
theorem firstOccurrences_key_not_seen :
    ∀ (l : List NetworkPort) (seen : List String) (x : NetworkPort),
      x ∈ firstOccurrences l seen → portKey x ∉ seen := by
  intro l
  induction l with
  | nil => intro seen x h; simp [firstOccurrences] at h
  | cons p rest ih =>
    intro seen x h
    by_cases hf : portKey p ∈ seen
    · simp only [firstOccurrences, if_pos hf] at h
      exact ih seen x h
    · simp only [firstOccurrences, if_neg hf] at h
      rcases List.mem_cons.mp h with h | h
      · exact h ▸ hf
      · intro hmem
        exact ih _ x h (List.mem_cons_of_mem _ hmem)

/-- The map-filling loop keeps at most one entry per key. -/
theorem firstOccurrences_keys_nodup :
    ∀ (l : List NetworkPort) (seen : List String),
      ((firstOccurrences l seen).map portKey).Nodup := by
  intro l
  induction l with
  | nil => intro seen; simp [firstOccurrences]
  | cons p rest ih =>
    intro seen
    by_cases hf : portKey p ∈ seen
    · simp only [firstOccurrences, if_pos hf]
      exact ih seen
    · simp only [firstOccurrences, if_neg hf, List.map_cons, List.nodup_cons]
      refine ⟨?_, ih _⟩
      intro hmem
      rcases List.mem_map.mp hmem with ⟨x, hx, hkey⟩
      exact firstOccurrences_key_not_seen rest _ x hx
        (hkey ▸ List.mem_cons_self _ seen)

/-- On inputs whose keys are already pairwise distinct and disjoint from
the seen set, the map-filling loop keeps everything. -/
theorem firstOccurrences_eq_self :
    ∀ (l : List NetworkPort) (seen : List String),
      (l.map portKey).Nodup → (∀ x ∈ l, portKey x ∉ seen) →
      firstOccurrences l seen = l := by
  intro l
  induction l with
  | nil => intro seen _ _; rfl
  | cons p rest ih =>
    intro seen hnd hdisj
    have hf : portKey p ∉ seen := hdisj p (List.mem_cons_self p rest)
    simp only [firstOccurrences, if_neg hf]
    simp only [List.map_cons, List.nodup_cons] at hnd
    refine congrArg (p :: ·) (ih _ hnd.2 ?_)
    intro x hx
    simp only [List.mem_cons]
    rintro (hkey | hseen)
    · exact hnd.1 (hkey ▸ List.mem_map_of_mem portKey hx)
    · exact hdisj x (List.mem_cons_of_mem p hx) hseen

/-- Entries of the deduplicated output come from the input. -/
theorem mem_deduplicatePorts {ports : List NetworkPort} {x : NetworkPort}
    (h : x ∈ deduplicatePorts ports) : x ∈ ports := by
  unfold deduplicatePorts at h
  split at h
  · exact h
  · exact mem_firstOccurrences ports [] x ((List.mem_insertionSort portOrder).mp h)

/-- When every input protocol is `"TCP"` or `"UDP"`, the deduplicated
output is sorted with respect to the comparator order. -/
theorem sorted_deduplicatePorts (ports : List NetworkPort)
    (hp : ∀ p ∈ ports, p.Protocol = "TCP" ∨ p.Protocol = "UDP") :
    (deduplicatePorts ports).Sorted portOrder := by
  unfold deduplicatePorts
  split
  · next h => exact h ▸ List.sorted_nil
  · next h =>
    have hp₀ : ∀ p ∈ firstOccurrences ports [], p.Protocol = "TCP" ∨ p.Protocol = "UDP" :=
      fun p hpm => hp p (mem_firstOccurrences ports [] p hpm)
    have hmap :
        ((firstOccurrences ports []).attach.map
            (fun x => (⟨x.1, hp₀ x.1 x.2⟩ : TUPort))).map Subtype.val
          = firstOccurrences ports [] := by
      rw [List.map_map]
      show (firstOccurrences ports []).attach.map (fun i => id i.1) = _
      rw [List.attach_map_val, List.map_id]
    have hcomm :
        (List.insertionSort tuOrder
            ((firstOccurrences ports []).attach.map
              (fun x => (⟨x.1, hp₀ x.1 x.2⟩ : TUPort)))).map Subtype.val
          = List.insertionSort portOrder (firstOccurrences ports []) := by
      rw [List.map_insertionSort tuOrder portOrder Subtype.val _
        (fun a _ b _ => Iff.rfl), hmap]
    rw [← hcomm]
    exact List.Pairwise.map Subtype.val (fun a b hab => hab)
      (List.sorted_insertionSort tuOrder _)

/-- C8, amended: assuming every input protocol is `"TCP"` or `"UDP"`, the
deduplicated output is sorted with respect to the comparator order (so
every TCP entry precedes every UDP entry, equal-protocol entries are in
ascending order of parsed port), and the dedup-and-sort operation is
idempotent.  Because unparsable ports are assigned the sentinel value
`99999` rather than sorted last, they come after ports parsing below
`99999` but *before* ports parsing above it (see the counterexample). -/
theorem c8_amended_sorted_idempotent (ports : List NetworkPort)
    (hp : ∀ p ∈ ports, p.Protocol = "TCP" ∨ p.Protocol = "UDP") :
    (deduplicatePorts ports).Sorted portOrder ∧
    ((deduplicatePorts ports).Pairwise fun a b =>
      a.Protocol = "UDP" → b.Protocol = "UDP") ∧
    ((deduplicatePorts ports).Pairwise fun a b =>
      a.Protocol = b.Protocol →
        parsePortNumber a.Port ≤ parsePortNumber b.Port) ∧
    deduplicatePorts (deduplicatePorts ports) = deduplicatePorts ports := by
  have hsorted := sorted_deduplicatePorts ports hp
  have hpd : ∀ p ∈ deduplicatePorts ports, p.Protocol = "TCP" ∨ p.Protocol = "UDP" :=
    fun p hpm => hp p (mem_deduplicatePorts hpm)
  refine ⟨hsorted, ?_, ?_, ?_⟩
  · refine hsorted.imp_of_mem ?_
    intro a b hma hmb hab haU
    have hab' : portLE a b = true := hab
    rcases hpd b hmb with hbT | hbU
    · exfalso
      rw [portLE_char a b (hpd a hma) (hpd b hmb)] at hab'
      simp [protoTier, haU, hbT] at hab'
    · exact hbU
  · refine hsorted.imp_of_mem ?_
    intro a b _ _ hab heq
    have hab' : portLE a b = true := hab
    have : portLess b a = false := by
      simpa [portLE] using hab'
    unfold portLess at this
    rw [if_neg (by rw [heq]; exact fun hne => hne rfl)] at this
    simpa using this
  · by_cases hnil : ports = []
    · rw [hnil]; rfl
    · have hout : deduplicatePorts ports
          = List.insertionSort portOrder (firstOccurrences ports []) := by
        unfold deduplicatePorts
        rw [if_neg hnil]
      have hne : deduplicatePorts ports ≠ [] := by
        rw [hout]
        intro hcontra
        have hperm := List.perm_insertionSort portOrder (firstOccurrences ports [])
        rw [hcontra] at hperm
        have : firstOccurrences ports [] = [] := hperm.symm.eq_nil
        cases ports with
        | nil => exact hnil rfl
        | cons p rest =>
          by_cases hf : portKey p ∈ ([] : List String)
          · cases hf
          · simp [firstOccurrences, if_neg hf] at this
      have hkeys : ((deduplicatePorts ports).map portKey).Nodup := by
        rw [hout]
        exact ((List.perm_insertionSort portOrder
          (firstOccurrences ports [])).map portKey).nodup_iff.mpr
          (firstOccurrences_keys_nodup ports [])
      conv =>
        lhs
        rw [deduplicatePorts]
      rw [if_neg hne]
      rw [firstOccurrences_eq_self (deduplicatePorts ports) [] hkeys
        (fun x _ => List.not_mem_nil (portKey x))]
      exact hsorted.insertionSort_eq

/-- A UDP entry used in the C8 witness. -/
def portUdpDns : NetworkPort :=
  { Protocol := "UDP", Address := "0.0.0.0:53", Port := "53", State := "UNCONN",
    ProcessName := "", PID := "" }

/-- Witness for C8 amended: a TCP and a UDP entry; the dedup-and-sort is
idempotent on them. -/
theorem c8_amended_sorted_idempotent_witness :
    (∀ p ∈ [portUdpDns, portWithName], p.Protocol = "TCP" ∨ p.Protocol = "UDP") ∧
    deduplicatePorts (deduplicatePorts [portUdpDns, portWithName])
      = deduplicatePorts [portUdpDns, portWithName] :=
  ⟨by decide, (c8_amended_sorted_idempotent [portUdpDns, portWithName] (by decide)).2.2.2⟩

/-! ## Port entry formatting and chunking (`embed/builder.go`
`formatAddress` / `shortenProcessName` / `chunkPorts`) -/

/-- Model of `formatAddress` (builder.go lines 460-464): return the trimmed address
unmodified. -/
def formatAddress (address : String) : String := goTrimSpace address

/-- Model of Go `strings.Title` (ASCII): uppercase each character that
follows a non-letter. -/
def titleChars : List Char → Bool → List Char
  | [], _ => []
  | c :: rest, prevLetter =>
    (if prevLetter then c else c.toUpper) :: titleChars rest c.isAlpha

/-- Go `strings.Title`. -/
def goTitle (s : String) : String := ⟨titleChars s.data false⟩

/-- The `serviceAliases` table of `shortenProcessName`, in source literal
order.  Go iterates this map in an unspecified order during the
partial-match pass; the model fixes literal order (at most one alias can
differ only for inputs matching several keys with different aliases). -/
def serviceAliases : List (String × String) :=
  [("Docker Container Port", "Docker"),
   ("Docker Engine", "Docker"),
   ("Container Runtime", "Containerd"),
   ("Nginx Web Server", "Nginx"),
   ("Apache Web Server", "Apache"),
   ("Node.js Application", "Node.js"),
   ("MySQL Database", "MySQL"),
   ("PostgreSQL Database", "PostgreSQL"),
   ("Redis Cache", "Redis"),
   ("MongoDB Database", "MongoDB"),
   ("SSH Server", "SSH"),
   ("System Service", "Systemd"),
   ("DNS Resolver", "Resolved"),
   ("DHCP Client", "DHCP"),
   ("Python Application", "Python"),
   ("Java Application", "Java")]

/-- Model of `shortenProcessName` (builder.go lines 467-541). -/
def shortenProcessName (processName : String) : String :=
  if processName = "" || processName = "Unknown Process" then "Unknown"
  else
    let cleaned :=
      if goContains processName " (PID:" then
        (goSplitOn processName " (PID:").headD processName
      else processName
    match serviceAliases.find? (fun kv => kv.1 == cleaned) with
    | some kv => kv.2
    | none =>
      let cleanedLower := goToLower cleaned
      match serviceAliases.find? (fun kv => goContains cleanedLower (goToLower kv.1)) with
      | some kv => kv.2
      | none =>
        if goContains cleanedLower "docker" then "Docker"
        else if goContains cleanedLower "nginx" then "Nginx"
        else if goContains cleanedLower "apache" || goContains cleanedLower "httpd" then
          "Apache"
        else if cleaned.length > 15 then
          let words := goFields cleaned
          if words.length > 1 ∧ (words.headD "").length ≤ 12 ∧ 2 < (words.headD "").length
          then goTitle (words.headD "")
          else ⟨cleaned.data.take 12⟩ ++ "..."
        else cleaned

/-- One formatted port line (builder.go line 426):
`fmt.Sprintf("`%s` %s\n", address, processName)`. -/
def portEntry (p : NetworkPort) : String :=
  "`" ++ formatAddress p.Address ++ "` " ++ shortenProcessName p.ProcessName ++ "\n"

/-- Total byte length of the entries accumulated in the current chunk
(the Go `strings.Builder.Len()`). -/
def entriesLen (es : List String) : ℕ := (es.map String.length).sum

/-- The chunking loop of `chunkPorts` (builder.go lines 420-453), tracked
at the granularity of the formatted entries each chunk holds.  The Go
`currentCount` always equals the number of entries written to the current
builder, so the model uses the entry list's length for it.  A chunk is
flushed (when non-empty) before an entry that would exceed `maxPorts`
entries or `maxLength + 200` bytes. -/
def chunkLoop (maxPorts maxLength : ℕ) : List NetworkPort → List String → List (List String)
  | [], cur => if cur.isEmpty then [] else [cur]
  | p :: rest, cur =>
    let e := portEntry p
    if maxPorts ≤ cur.length || maxLength + 200 < entriesLen cur + e.length then
      if cur.isEmpty then chunkLoop maxPorts maxLength rest [e]
      else cur :: chunkLoop maxPorts maxLength rest [e]
    else chunkLoop maxPorts maxLength rest (cur ++ [e])

/-- The chunks of `chunkPorts`, as lists of formatted entries. -/
def chunkPortsEntries (ports : List NetworkPort) (maxPorts maxLength : ℕ) :
    List (List String) :=
  chunkLoop maxPorts maxLength ports []

/-- Model of `chunkPorts` (builder.go lines 408-457): empty input yields the fixed
page `"No ports found"`; otherwise each chunk's page body is the trimmed
concatenation of its entries. -/
def chunkPorts (ports : List NetworkPort) (maxPorts maxLength : ℕ) : List String :=
  if ports.isEmpty then ["No ports found"]
  else (chunkPortsEntries ports maxPorts maxLength).map
    (fun es => goTrimSpace (String.join es))

/-! ## Claim C4 -/

/-- A small TCP entry for the C4 counterexample: its formatted line
`` `0.0.0.0:80` Unknown\n `` is 20 bytes. -/
def portTiny : NetworkPort :=
  { Protocol := "TCP", Address := "0.0.0.0:80", Port := "80", State := "LISTEN",
    ProcessName := "", PID := "" }

set_option maxRecDepth 20000 in
/-- C4 counterexample: with `maxPorts = 6` and byte budget `B = 10`, six
copies of a 21-byte entry are all placed in one page of 125 bytes — the
page body exceeds `B` (the loop only flushes above `B + 200`), and it is
not a fixed-size truncation/summary marker page. -/
theorem c4_counterexample :
    (chunkPorts (List.replicate 6 portTiny) 6 10).map String.length = [125] ∧
    ¬ (125 ≤ 10) := by
  refine ⟨by decide, by decide⟩

/-- Every chunk the loop emits is a single entry or fits in
`maxLength + 200` bytes, given the running chunk does. -/
theorem chunkLoop_size (maxPorts maxLength : ℕ) :
    ∀ (ports : List NetworkPort) (cur : List String),
      (cur.length ≤ 1 ∨ entriesLen cur ≤ maxLength + 200) →
      ∀ es ∈ chunkLoop maxPorts maxLength ports cur,
        es.length = 1 ∨ entriesLen es ≤ maxLength + 200 := by
  intro ports
  induction ports with
  | nil =>
    intro cur hcur es hes
    unfold chunkLoop at hes
    split at hes
    · cases hes
    · next hne =>
      rcases List.mem_singleton.mp hes with rfl
      rcases hcur with h | h
      · left
        have h0 : es ≠ [] := by simpa [List.isEmpty_iff] using hne
        have h1 : 0 < es.length := List.length_pos.mpr h0
        omega
      · right; exact h
  | cons p rest ih =>
    intro cur hcur es hes
    unfold chunkLoop at hes
    simp only at hes
    by_cases hflush :
        (decide (maxPorts ≤ cur.length)
          || decide (maxLength + 200 < entriesLen cur + (portEntry p).length)) = true
    · rw [if_pos hflush] at hes
      by_cases hemp : cur.isEmpty
      · rw [if_pos hemp] at hes
        exact ih [portEntry p] (by left; simp) es hes
      · rw [if_neg hemp] at hes
        rcases List.mem_cons.mp hes with rfl | hes2
        · rcases hcur with h | h
          · left
            have h0 : es ≠ [] := by simpa [List.isEmpty_iff] using hemp
            have h1 : 0 < es.length := List.length_pos.mpr h0
            omega
          · right; exact h
        · exact ih [portEntry p] (by left; simp) es hes2
    · rw [if_neg hflush] at hes
      have hb : ¬ (maxLength + 200 < entriesLen cur + (portEntry p).length) := by
        intro hc
        exact hflush (by simp [hc])
      refine ih (cur ++ [portEntry p]) ?_ es hes
      right
      have hlen : entriesLen (cur ++ [portEntry p])
          = entriesLen cur + (portEntry p).length := by
        simp [entriesLen]
      omega

/-- Flattening the emitted chunks recovers the pending entries followed by
one formatted entry per remaining port: the loop drops nothing and
duplicates nothing. -/
theorem chunkLoop_flatten (maxPorts maxLength : ℕ) :
    ∀ (ports : List NetworkPort) (cur : List String),
      (chunkLoop maxPorts maxLength ports cur).flatten
        = cur ++ ports.map portEntry := by
  intro ports
  induction ports with
  | nil =>
    intro cur
    unfold chunkLoop
    split
    · next h => simp [List.isEmpty_iff.mp h]
    · simp
  | cons p rest ih =>
    intro cur
    unfold chunkLoop
    simp only
    by_cases hflush :
        (decide (maxPorts ≤ cur.length)
          || decide (maxLength + 200 < entriesLen cur + (portEntry p).length)) = true
    · rw [if_pos hflush]
      by_cases hemp : cur.isEmpty
      · rw [if_pos hemp]
        simp [List.isEmpty_iff.mp hemp, ih]
      · rw [if_neg hemp]
        simp [ih]
    · rw [if_neg hflush]
      rw [ih]
      simp

/-- Trimming never lengthens a string. -/
theorem goTrimSpace_length_le (s : String) : (goTrimSpace s).length ≤ s.length := by
  show ((s.data.dropWhile Char.isWhitespace).reverse.dropWhile
    Char.isWhitespace).reverse.length ≤ s.data.length
  calc ((s.data.dropWhile Char.isWhitespace).reverse.dropWhile
        Char.isWhitespace).reverse.length
      = ((s.data.dropWhile Char.isWhitespace).reverse.dropWhile
        Char.isWhitespace).length := List.length_reverse _
    _ ≤ (s.data.dropWhile Char.isWhitespace).reverse.length :=
        (List.dropWhile_sublist _).length_le
    _ = (s.data.dropWhile Char.isWhitespace).length := List.length_reverse _
    _ ≤ s.data.length := (List.dropWhile_sublist _).length_le

/-- The length of a joined list of strings is the sum of the lengths. -/
theorem join_length (es : List String) : (String.join es).length = entriesLen es := by
  have hgen : ∀ (l : List String) (acc : String),
      (l.foldl (fun r s => r ++ s) acc).length = acc.length + entriesLen l := by
    intro l
    induction l with
    | nil => intro acc; simp [entriesLen]
    | cons e rest ih =>
      intro acc
      simp only [List.foldl_cons, ih, String.length_append, entriesLen, List.map_cons,
        List.sum_cons]
      omega
  simpa using hgen es ""

/-- C4 amended: every page body produced by `chunkPorts` is bounded by
`maxLength + 200` bytes (not `maxLength`), except a page consisting of a
single formatted entry, which is as long as that entry. -/
theorem c4_amended_page_bound (ports : List NetworkPort) (maxPorts maxLength : ℕ)
    (body : String) (hbody : body ∈ chunkPorts ports maxPorts maxLength) :
    body.length ≤ maxLength + 200 ∨
    ∃ p ∈ ports, body = goTrimSpace (portEntry p) := by
  unfold chunkPorts at hbody
  split at hbody
  · left
    rcases List.mem_singleton.mp hbody with rfl
    show (14 : ℕ) ≤ maxLength + 200
    omega
  · rcases List.mem_map.mp hbody with ⟨es, hes, rfl⟩
    rcases chunkLoop_size maxPorts maxLength ports [] (by left; simp) es hes with h1 | h1
    · rcases List.length_eq_one.mp h1 with ⟨e, rfl⟩
      have he : e ∈ (chunkPortsEntries ports maxPorts maxLength).flatten :=
        List.mem_flatten.mpr ⟨[e], hes, List.mem_singleton.mpr rfl⟩
      unfold chunkPortsEntries at he
      rw [chunkLoop_flatten maxPorts maxLength ports []] at he
      rcases List.mem_map.mp (by simpa using he) with ⟨p, hp, rfl⟩
      right
      refine ⟨p, hp, ?_⟩
      have : String.join [portEntry p] = portEntry p := by
        show "" ++ portEntry p = portEntry p
        simp
      rw [this]
    · left
      calc (goTrimSpace (String.join es)).length
          ≤ (String.join es).length := goTrimSpace_length_le _
        _ = entriesLen es := join_length es
        _ ≤ maxLength + 200 := h1

set_option maxRecDepth 20000 in
/-- Witness for C4 amended: one small port with the default budget `1000`;
its single page is within `1000 + 200` bytes. -/
theorem c4_amended_page_bound_witness :
    ("`0.0.0.0:80` Unknown" ∈ chunkPorts [portTiny] 6 1000) ∧
    (("`0.0.0.0:80` Unknown" : String).length ≤ 1000 + 200 ∨
      ∃ p ∈ [portTiny], "`0.0.0.0:80` Unknown" = goTrimSpace (portEntry p)) :=
  ⟨by decide, c4_amended_page_bound [portTiny] 6 1000 _ (by decide)⟩

/-! ## Claim C5 -/

/-- C5 amended: the chunker partitions its input exactly — flattening the
produced chunks yields one formatted entry per input port, so the items
across all chunks sum to the total input count.  (The `BuildPorts`
truncation marker, by contrast, reports *chunk* counts, not item counts;
see the counterexample.) -/
theorem c5_chunks_partition (ports : List NetworkPort) (maxPorts maxLength : ℕ) :
    (chunkPortsEntries ports maxPorts maxLength).flatten = ports.map portEntry ∧
    ((chunkPortsEntries ports maxPorts maxLength).map List.length).sum
      = ports.length := by
  have h := chunkLoop_flatten maxPorts maxLength ports []
  have h1 : (chunkPortsEntries ports maxPorts maxLength).flatten
      = ports.map portEntry := by
    simpa [chunkPortsEntries] using h
  refine ⟨h1, ?_⟩
  have h2 := congrArg List.length h1
  simpa [List.length_flatten] using h2

/-- State of one protocol section of the `BuildPorts` field loop: the
chunk pages actually displayed, the optional truncation marker values
`(i, len(chunks))` from `"Showing %d/%d ... ports"`, and the running
`fieldCount`. -/
structure SectionResult where
  shown : List (List String)
  truncation : Option (ℕ × ℕ)
  fieldCount : ℕ
deriving DecidableEq, Repr

/-- The `for i, chunk := range chunks` loop of a `BuildPorts` protocol
section (builder.go lines 181-203 and 212-234): once `fieldCount`
reaches the ceiling, a truncation field `(i, total)` is appended and the
loop breaks; otherwise the chunk is displayed and `fieldCount`
increments. -/
def sectionLoop (maxTotalFields total : ℕ) :
    List (List String) → ℕ → ℕ → SectionResult
  | [], _, fc => ⟨[], none, fc⟩
  | chunk :: rest, i, fc =>
    if maxTotalFields ≤ fc then ⟨[], some (i, total), fc⟩
    else
      let r := sectionLoop maxTotalFields total rest (i + 1) (fc + 1)
      ⟨chunk :: r.shown, r.truncation, r.fieldCount⟩

/-- The displayed pages and truncation markers of `BuildPorts`
(builder.go lines 118-257), tracked at entry-list granularity (each
displayed page body is the trimmed join of its chunk). -/
structure PortsDisplay where
  tcpShown : List (List String)
  tcpTruncation : Option (ℕ × ℕ)
  udpShown : List (List String)
  udpTruncation : Option (ℕ × ℕ)
deriving DecidableEq, Repr

/-- The `BuildPorts` display model: deduplicate, split by upper-cased
protocol, chunk each group with the constants `maxPortsPerField = 6`,
`maxFieldValueLength = 1000`, `maxTotalFields = 12`, then run the two
guarded section loops sharing `fieldCount`. -/
def buildPortsDisplay (ports : List NetworkPort) : PortsDisplay :=
  let uniquePorts := deduplicatePorts ports
  let tcpPorts := uniquePorts.filter (fun p => goToUpper p.Protocol == "TCP")
  let udpPorts := uniquePorts.filter (fun p => goToUpper p.Protocol == "UDP")
  let tcpRes :=
    if 0 < tcpPorts.length ∧ (0 : ℕ) < 12 then
      sectionLoop 12 (chunkPortsEntries tcpPorts 6 1000).length
        (chunkPortsEntries tcpPorts 6 1000) 0 0
    else ⟨[], none, 0⟩
  let udpRes :=
    if 0 < udpPorts.length ∧ tcpRes.fieldCount < 12 then
      sectionLoop 12 (chunkPortsEntries udpPorts 6 1000).length
        (chunkPortsEntries udpPorts 6 1000) 0 tcpRes.fieldCount
    else ⟨[], none, tcpRes.fieldCount⟩
  ⟨tcpRes.shown, tcpRes.truncation, udpRes.shown, udpRes.truncation⟩

/-- Number of port items actually shown across all displayed pages. -/
def itemsShown (d : PortsDisplay) : ℕ :=
  (d.tcpShown.map List.length).sum + (d.udpShown.map List.length).sum

/-- 73 distinct TCP ports: 13 chunks of up to 6 entries each. -/
def manyTcpPorts : List NetworkPort :=
  (List.range 73).map fun i =>
    { Protocol := "TCP", Address := "a", Port := toString (i + 1), State := "LISTEN",
      ProcessName := "", PID := "" }

set_option maxRecDepth 100000 in
/-- C5 counterexample: 73 TCP ports produce 13 chunks; the field ceiling
shows 12 of them (72 items) and the truncation marker reads
"Showing 12/13" — chunk counts.  Neither `72 + 12` nor `72 + 13` equals
the 73 input items, refuting "items shown plus the count reported in the
truncation marker equals the total input item count". -/
theorem c5_counterexample :
    manyTcpPorts.length = 73 ∧
    itemsShown (buildPortsDisplay manyTcpPorts) = 72 ∧
    (buildPortsDisplay manyTcpPorts).tcpTruncation = some (12, 13) ∧
    72 + 12 ≠ 73 ∧ 72 + 13 ≠ 73 := by
  refine ⟨by decide, by decide, by decide, by decide, by decide⟩

/-! ## Memory parser (`monitor` memory file: `parseTopOutput` /
`cleanCommandName`)

The row regex
`^\s*(\d+)\s+(\S+)\s+\S+\s+\S+\s+\S+\s+\S+\s+\S+\s+\S+\s+([\d.]+)\s+([\d.]+)\s+\S+\s+(.+)$`
is anchored at both ends and every `\S+`/`[\d.]+` group is forced to
cover exactly one whitespace-delimited token, so matching is equivalent
to: at least 12 tokens, token 1 all digits, tokens 9 and 10 made of
digits and dots, capture 5 = tokens 12 onward.  `cleanCommandName` only
ever inspects the first whitespace token of capture 5, so rebuilding the
capture with single spaces is immaterial. -/

/-- Character class of the regex `[\d.]`. -/
def digitOrDot (c : Char) : Bool := c.isDigit || c == '.'

/-- A token the regex groups `([\d.]+)` accept. -/
def regexNumTok (t : String) : Bool := !t.data.isEmpty && t.data.all digitOrDot

/-- A token the regex group `(\d+)` accepts. -/
def allDigits (t : String) : Bool := !t.data.isEmpty && t.data.all Char.isDigit

/-- Model of `strconv.ParseFloat` restricted to the `[\d.]+` strings the
regex can produce: succeeds on at most one dot and at least one digit,
giving the exact decimal value.  (Go rounds to the nearest `float64`;
the exact rational keeps the order and zero-test used by the parser.) -/
def parseFloatQ (t : String) : Option ℚ :=
  let cs := t.data
  if cs.all digitOrDot ∧ cs.any Char.isDigit ∧
      (cs.filter (fun c => c == '.')).length ≤ 1 then
    let intPart := cs.takeWhile (fun c => c ≠ '.')
    let fracPart := (cs.dropWhile (fun c => c ≠ '.')).drop 1
    some ((digitsToNat intPart : ℚ) + (digitsToNat fracPart : ℚ) / (10 ^ fracPart.length))
  else none

/-- The `processMap` table of `cleanCommandName`, in source literal order
(only exact lookups are made, so map order is immaterial). -/
def processMap : List (String × String) :=
  [("dockerd", "Docker Daemon"),
   ("containerd", "Container Runtime"),
   ("docker-proxy", "Docker Proxy"),
   ("nginx", "Nginx"),
   ("apache2", "Apache"),
   ("httpd", "Apache"),
   ("node", "Node.js"),
   ("mysql", "MySQL"),
   ("mysqld", "MySQL"),
   ("postgres", "PostgreSQL"),
   ("redis-server", "Redis"),
   ("mongod", "MongoDB"),
   ("systemd", "SystemD"),
   ("chrome", "Chrome"),
   ("firefox", "Firefox"),
   ("code", "VS Code"),
   ("gnome-shell", "GNOME Shell"),
   ("Xorg", "X Server"),
   ("pulseaudio", "PulseAudio"),
   ("NetworkManager", "Network Manager")]

/-- Model of `cleanCommandName`: strip arguments, strip any path, unwrap bracketed
kernel-thread names, then map well-known binaries to friendly names. -/
def cleanCommandName (command : String) : String :=
  match goFields command with
  | [] => command
  | base0 :: _ =>
    let base1 :=
      if goContains base0 "/" then (goSplitOn base0 "/").getLastD base0 else base0
    if startsWithChars base1.data "[".data
        && startsWithChars base1.data.reverse "]".data then
      goTrimCutset base1 ['[', ']']
    else
      match processMap.find? (fun kv => kv.1 == base1) with
      | some kv => kv.2
      | none => base1

/-- Header detection (`strings.Contains` of "PID", "%MEM" and "COMMAND"). -/
def lineIsHeader (line : String) : Bool :=
  goContains line "PID" && goContains line "%MEM" && goContains line "COMMAND"

/-- The regex match and record construction on the tokens of one trimmed
data line. -/
def parseProcessToks (toks : List String) : Option ProcessMemory :=
  if 12 ≤ toks.length ∧ allDigits (toks.getD 0 "") ∧ regexNumTok (toks.getD 8 "")
      ∧ regexNumTok (toks.getD 9 "") then
    match parseFloatQ (toks.getD 8 "") with
    | none => none
    | some memPct =>
      if memPct = 0 then none
      else
        some { PID := toks.getD 0 "", User := toks.getD 1 "",
               Command := cleanCommandName (" ".intercalate (toks.drop 11)),
               MemoryPercent := memPct,
               CPUPercent := (parseFloatQ (toks.getD 9 "")).getD 0 }
  else none

/-- One data line of the row loop: trim, tokenize, apply the row regex,
`ParseFloat` the memory and CPU percents (a bad CPU percent defaults to
`0`), and drop zero-memory rows.  `none` covers every `continue` path. -/
def parseProcessLine (rawLine : String) : Option ProcessMemory :=
  parseProcessToks (goFields (goTrimSpace rawLine))

/-- The row collection loop (`for i := dataStartIndex; i < len(lines) &&
foundProcesses < 15; i++`): stop after 15 collected rows, skip lines the
regex or the float parse reject and zero-memory rows. -/
def collectRows : List String → ℕ → List ProcessMemory
  | [], _ => []
  | l :: rest, found =>
    if 15 ≤ found then []
    else
      match parseProcessLine l with
      | some p => p :: collectRows rest (found + 1)
      | none => collectRows rest found

/-- Descending-memory order: the `sort.Slice` comparator is
`mem i > mem j`; its `sort.Slice` tie order is unspecified and is
determinized as a stable insertion sort for this non-strict order. -/
def memOrder (a b : ProcessMemory) : Prop := b.MemoryPercent ≤ a.MemoryPercent

instance : DecidableRel memOrder :=
  fun a b => inferInstanceAs (Decidable (b.MemoryPercent ≤ a.MemoryPercent))

instance : IsTotal ProcessMemory memOrder where
  total a b := le_total b.MemoryPercent a.MemoryPercent

instance : IsTrans ProcessMemory memOrder where
  trans _ _ _ hab hbc := le_trans hbc hab

/-- The final trim: `if len(processes) > 10 { processes = processes[:10] }`. -/
def topTen (sorted : List ProcessMemory) : List ProcessMemory :=
  if 10 < sorted.length then sorted.take 10 else sorted

/-- Model of `parseTopOutput`: find the header line (error when absent; the column
offsets the Go code also computes are never used for parsing), collect up
to 15 rows after it, sort by descending memory share, cap at 10. -/
def parseTopOutput (output : String) : Option (List ProcessMemory) :=
  match (goSplitOn output "\n").findIdx? lineIsHeader with
  | none => none
  | some i =>
    some (topTen
      ((collectRows ((goSplitOn output "\n").drop (i + 1)) 0).insertionSort memOrder))

/-- Rows the token matcher accepts never carry a zero memory percent. -/
theorem parseProcessToks_nonzero {toks : List String} {p : ProcessMemory}
    (h : parseProcessToks toks = some p) : p.MemoryPercent ≠ 0 := by
  unfold parseProcessToks at h
  split at h
  · split at h
    · cases h
    · next memPct _ =>
      split at h
      · cases h
      · next hmem =>
        cases h
        exact hmem
  · cases h

/-- Rows the line parser accepts never carry a zero memory percent. -/
theorem parseProcessLine_nonzero {l : String} {p : ProcessMemory}
    (h : parseProcessLine l = some p) : p.MemoryPercent ≠ 0 :=
  parseProcessToks_nonzero h

/-- Every collected row has a nonzero memory percent. -/
theorem collectRows_nonzero :
    ∀ (lines : List String) (found : ℕ) (p : ProcessMemory),
      p ∈ collectRows lines found → p.MemoryPercent ≠ 0 := by
  intro lines
  induction lines with
  | nil => intro found p h; cases h
  | cons l rest ih =>
    intro found p h
    unfold collectRows at h
    split at h
    · cases h
    · split at h
      · next q hq =>
        rcases List.mem_cons.mp h with rfl | h2
        · exact parseProcessLine_nonzero hq
        · exact ih (found + 1) p h2
      · exact ih found p h

/-- Scenario input from the spec: rows whose memory-percent column reads
`12.4`, `0.0` and `3.1`. -/
def topScenario : String :=
  "  PID USER      PR  NI    VIRT    RES    SHR S  %MEM  %CPU     TIME+ COMMAND\n1 root 20 0 100 200 300 S 12.4 1.0 0:00 procA\n2 root 20 0 100 200 300 S 0.0 1.0 0:00 procB\n3 root 20 0 100 200 300 S 3.1 1.0 0:00 procC"

set_option maxRecDepth 100000 in
unseal Rat.mul Rat.inv Rat.add in
/-- C9 amended: every successful parse yields a list that is sorted by
descending memory percent, holds at most 10 entries, and contains no
zero-memory row; the spec's scenario `[12.4, 0.0, 3.1] ↦ [12.4, 3.1]`
holds.  (The claim's "returns the remaining entries" is amended: only the
first 15 regex-matching nonzero rows are considered before sorting — see
the counterexample.) -/
theorem c9_amended_parser_properties :
    (∀ (output : String) (ps : List ProcessMemory), parseTopOutput output = some ps →
      ps.Sorted memOrder ∧ ps.length ≤ 10 ∧ ∀ p ∈ ps, p.MemoryPercent ≠ 0) ∧
    (parseTopOutput topScenario).map (fun ps => ps.map ProcessMemory.MemoryPercent)
      = some [62/5, 31/10] := by
  have htop : ∀ (l : List ProcessMemory), List.Sublist (topTen l) l ∧ (topTen l).length ≤ 10 := by
    intro l
    unfold topTen
    split
    · exact ⟨List.take_sublist 10 l, by simp⟩
    · next hlen => exact ⟨List.Sublist.refl l, by omega⟩
  constructor
  · intro output ps h
    unfold parseTopOutput at h
    split at h
    · cases h
    · next i _ =>
      rcases Option.some.inj h with rfl
      set rows := collectRows ((goSplitOn output "\n").drop (i + 1)) 0 with hrows
      have hsorted : (rows.insertionSort memOrder).Sorted memOrder :=
        List.sorted_insertionSort memOrder rows
      obtain ⟨hsub, hlen⟩ := htop (rows.insertionSort memOrder)
      refine ⟨hsorted.sublist hsub, hlen, ?_⟩
      intro p hp
      have hp2 : p ∈ rows.insertionSort memOrder := hsub.subset hp
      have hp3 : p ∈ rows := (List.mem_insertionSort memOrder).mp hp2
      exact collectRows_nonzero _ 0 p hp3
  · decide

set_option maxRecDepth 100000 in
unseal Rat.mul Rat.inv Rat.add in
/-- Witness for C9 amended at the scenario input. -/
theorem c9_amended_parser_properties_witness :
    ([({ PID := "1", User := "root", Command := "procA", MemoryPercent := 62/5,
         CPUPercent := 1 } : ProcessMemory),
      { PID := "3", User := "root", Command := "procC", MemoryPercent := 31/10,
        CPUPercent := 1 }].Sorted memOrder) ∧
    ([({ PID := "1", User := "root", Command := "procA", MemoryPercent := 62/5,
         CPUPercent := 1 } : ProcessMemory),
      { PID := "3", User := "root", Command := "procC", MemoryPercent := 31/10,
        CPUPercent := 1 }].length ≤ 10) :=
  have h := (c9_amended_parser_properties.1 topScenario
    [{ PID := "1", User := "root", Command := "procA", MemoryPercent := 62/5,
       CPUPercent := 1 },
     { PID := "3", User := "root", Command := "procC", MemoryPercent := 31/10,
       CPUPercent := 1 }] (by decide))
  ⟨h.1, h.2.1⟩

/-- Sixteen valid nonzero rows whose memory percents are `1.0 … 15.0`
followed by `99.9`: the 15-row collection bound stops before the largest
row. -/
def topSixteenRows : String :=
  "  PID USER      PR  NI    VIRT    RES    SHR S  %MEM  %CPU     TIME+ COMMAND\n1 root 20 0 1 1 1 S 1.0 0.5 0:00 p1\n2 root 20 0 1 1 1 S 2.0 0.5 0:00 p2\n3 root 20 0 1 1 1 S 3.0 0.5 0:00 p3\n4 root 20 0 1 1 1 S 4.0 0.5 0:00 p4\n5 root 20 0 1 1 1 S 5.0 0.5 0:00 p5\n6 root 20 0 1 1 1 S 6.0 0.5 0:00 p6\n7 root 20 0 1 1 1 S 7.0 0.5 0:00 p7\n8 root 20 0 1 1 1 S 8.0 0.5 0:00 p8\n9 root 20 0 1 1 1 S 9.0 0.5 0:00 p9\n10 root 20 0 1 1 1 S 10.0 0.5 0:00 p10\n11 root 20 0 1 1 1 S 11.0 0.5 0:00 p11\n12 root 20 0 1 1 1 S 12.0 0.5 0:00 p12\n13 root 20 0 1 1 1 S 13.0 0.5 0:00 p13\n14 root 20 0 1 1 1 S 14.0 0.5 0:00 p14\n15 root 20 0 1 1 1 S 15.0 0.5 0:00 p15\n16 root 20 0 1 1 1 S 99.9 0.5 0:00 p16"

set_option maxRecDepth 1000000 in
unseal Rat.mul Rat.inv Rat.add in
/-- C9 counterexample: on sixteen valid nonzero rows whose largest memory
percent (`99.9`) comes last, the parser returns the top of the *first 15*
rows only — `[15, 14, …, 6]` — although row 16 parses to a nonzero
`99.9`% entry.  The output is not the top-10 of all nonzero rows,
refuting the claim for inputs with more than 15 process rows. -/
theorem c9_counterexample :
    (parseTopOutput topSixteenRows).map (fun ps => ps.map ProcessMemory.MemoryPercent)
      = some [15, 14, 13, 12, 11, 10, 9, 8, 7, 6] ∧
    parseProcessLine "16 root 20 0 1 1 1 S 99.9 0.5 0:00 p16"
      = some { PID := "16", User := "root", Command := "p16",
               MemoryPercent := 999/10, CPUPercent := 1/2 } ∧
    ((999 : ℚ)/10 ≠ 0) ∧
    (999 : ℚ)/10 ∉ ([15, 14, 13, 12, 11, 10, 9, 8, 7, 6] : List ℚ) := by
  refine ⟨by decide, by decide, by decide, by decide⟩

end SysMonitorBot
